import Mathlib

/-!
Shallow embedding of the ray-tracing core of the repository
(`src/hittable_list.rs`, `src/sphere.rs`, `src/shapes/square.rs`,
`src/shapes/cylinder.rs`, `src/shapes/cube.rs`, `src/material.rs`,
`src/color.rs`, `src/common.rs`, `src/main.rs`).

`f64` arithmetic is idealised as the real numbers.  The `vec3`, `ray` and
`hittable` modules are not among the inspected sources; their small data
types and formulas are modelled from the specification (sections 4.1 and
4.2) and are marked `Modelled from the spec:` below.  The global random
number source is passed explicitly wherever the source samples it, and
trait objects (`dyn Hittable`, `dyn Material`) are embedded as functions
and numeric material handles.
-/

noncomputable section

namespace RayTracing

/-- Modelled from the spec: the `vec3` module is missing from the inspected
sources; section 4.1 describes a 3-component real vector with
component-wise arithmetic, dot and cross products, Euclidean length, and
length-divide normalisation. -/
structure Vec3 where
  x : ℝ
  y : ℝ
  z : ℝ

instance : Add Vec3 := ⟨fun a b => ⟨a.x + b.x, a.y + b.y, a.z + b.z⟩⟩

instance : Sub Vec3 := ⟨fun a b => ⟨a.x - b.x, a.y - b.y, a.z - b.z⟩⟩

instance : Neg Vec3 := ⟨fun a => ⟨-a.x, -a.y, -a.z⟩⟩

instance : Mul Vec3 := ⟨fun a b => ⟨a.x * b.x, a.y * b.y, a.z * b.z⟩⟩

instance : SMul ℝ Vec3 := ⟨fun k v => ⟨k * v.x, k * v.y, k * v.z⟩⟩

def dot (a b : Vec3) : ℝ := a.x * b.x + a.y * b.y + a.z * b.z

def cross (a b : Vec3) : Vec3 :=
  ⟨a.y * b.z - a.z * b.y, a.z * b.x - a.x * b.z, a.x * b.y - a.y * b.x⟩

def lengthSquared (v : Vec3) : ℝ := dot v v

def length (v : Vec3) : ℝ := Real.sqrt (lengthSquared v)

/-- Component-wise division of a vector by a scalar (`Vec3 / f64`). -/
def sdiv (v : Vec3) (k : ℝ) : Vec3 := ⟨v.x / k, v.y / k, v.z / k⟩

/-- Modelled from the spec (section 4.1): normalisation divides by the
Euclidean length. -/
def unitVector (v : Vec3) : Vec3 := sdiv v (length v)

/-- Modelled from the spec (section 4.1): `reflect(v, n) = v - 2*dot(v,n)*n`. -/
def reflect (v n : Vec3) : Vec3 := v - (2 * dot v n) • n

/-- Modelled from the spec (section 4.2): a ray is an origin point plus a
direction vector. -/
structure Ray where
  origin : Vec3
  direction : Vec3

/-- Modelled from the spec (section 4.2): `Ray.at(t) = origin + t*direction`. -/
def Ray.at (r : Ray) (t : ℝ) : Vec3 := r.origin + t • r.direction

/-- Modelled from the spec (section 4.2) and the uses in `src/main.rs`:
hit point, oriented normal, ray parameter `t`, front-face flag, and the
optional material handle (`Option<Rc<dyn Material>>` becomes an optional
numeric id in this embedding). -/
structure HitRecord where
  p : Vec3
  normal : Vec3
  t : ℝ
  frontFace : Bool
  mat : Option ℕ

/-- Modelled from the spec (section 4.2): the normal that `set_face_normal`
stores — the outward normal when it opposes the ray direction, its
negation otherwise. -/
def faceNormalVec (r : Ray) (outward : Vec3) : Vec3 :=
  if dot r.direction outward < 0 then outward else -outward

/-- Builds a hit record the way every primitive in the source does: set
`t` and `p`, call `set_face_normal(r, outward)`, and store the material
handle. -/
def mkHitRecord (r : Ray) (t : ℝ) (p outward : Vec3) (m : ℕ) : HitRecord :=
  { p := p
    normal := faceNormalVec r outward
    t := t
    frontFace := if dot r.direction outward < 0 then true else false
    mat := some m }

/-! ### Sphere (`src/sphere.rs`) -/

structure Sphere where
  center : Vec3
  radius : ℝ
  mat : ℕ

/-- `a = dot(D, D)` in `Sphere::hit`. -/
def Sphere.quadA (_s : Sphere) (r : Ray) : ℝ := dot r.direction r.direction

/-- `half_b = dot(O - C, D)` in `Sphere::hit`. -/
def Sphere.quadHalfB (s : Sphere) (r : Ray) : ℝ :=
  dot (r.origin - s.center) r.direction

/-- `c = dot(O - C, O - C) - r*r` in `Sphere::hit`. -/
def Sphere.quadC (s : Sphere) (r : Ray) : ℝ :=
  dot (r.origin - s.center) (r.origin - s.center) - s.radius * s.radius

/-- `discriminant = half_b*half_b - a*c` in `Sphere::hit`. -/
def Sphere.discrim (s : Sphere) (r : Ray) : ℝ :=
  s.quadHalfB r * s.quadHalfB r - s.quadA r * s.quadC r

/-- The first root tried by `Sphere::hit`: `(-half_b - sqrt(d)) / a`. -/
def Sphere.root1 (s : Sphere) (r : Ray) : ℝ :=
  (-s.quadHalfB r - Real.sqrt (s.discrim r)) / s.quadA r

/-- The second root tried by `Sphere::hit`: `(-half_b + sqrt(d)) / a`. -/
def Sphere.root2 (s : Sphere) (r : Ray) : ℝ :=
  (-s.quadHalfB r + Real.sqrt (s.discrim r)) / s.quadA r

/-- The record `Sphere::hit` fills on success: outward normal is
`(p - center) / radius`. -/
def sphereRec (s : Sphere) (r : Ray) (root : ℝ) : HitRecord :=
  mkHitRecord r root (r.at root) (sdiv (r.at root - s.center) s.radius) s.mat

def Sphere.hit (s : Sphere) (r : Ray) (tMin tMax : ℝ) : Option HitRecord :=
  if s.discrim r < 0 then none
  else if s.root1 r ≤ tMin ∨ tMax ≤ s.root1 r then
    if s.root2 r ≤ tMin ∨ tMax ≤ s.root2 r then none
    else some (sphereRec s r (s.root2 r))
  else some (sphereRec s r (s.root1 r))

/-! ### Square (`src/shapes/square.rs`) -/

structure Square where
  center : Vec3
  normal : Vec3
  uAxis : Vec3
  vAxis : Vec3
  size : ℝ
  mat : ℕ

def Square.new (center normal : Vec3) (size : ℝ) (m : ℕ) : Square :=
  let unitNormal := unitVector normal
  let temp : Vec3 := if |unitNormal.x| > 9 / 10 then ⟨0, 1, 0⟩ else ⟨1, 0, 0⟩
  let uAxis := unitVector (cross unitNormal temp)
  let vAxis := cross unitNormal uAxis
  ⟨center, unitNormal, uAxis, vAxis, size, m⟩

/-- `ray_dot_normal` in `Square::hit`. -/
def Square.rdn (q : Square) (r : Ray) : ℝ := dot r.direction q.normal

/-- The plane parameter `t = dot(center - O, n) / dot(D, n)` in `Square::hit`. -/
def Square.planeT (q : Square) (r : Ray) : ℝ :=
  dot (q.center - r.origin) q.normal / q.rdn r

/-- `u_coord` in `Square::hit`: projection of the hit offset on the u axis. -/
def Square.uCoord (q : Square) (r : Ray) : ℝ :=
  dot (r.at (q.planeT r) - q.center) q.uAxis

/-- `v_coord` in `Square::hit`: projection of the hit offset on the v axis. -/
def Square.vCoord (q : Square) (r : Ray) : ℝ :=
  dot (r.at (q.planeT r) - q.center) q.vAxis

def Square.hit (q : Square) (r : Ray) (tMin tMax : ℝ) : Option HitRecord :=
  if |q.rdn r| < 1 / 100000000 then none
  else if q.planeT r ≤ tMin ∨ q.planeT r ≥ tMax then none
  else if |q.uCoord r| > q.size / 2 ∨ |q.vCoord r| > q.size / 2 then none
  else some (mkHitRecord r (q.planeT r) (r.at (q.planeT r)) q.normal q.mat)

/-! ### Disk (`src/shapes/cylinder.rs`) -/

structure Disk where
  center : Vec3
  normal : Vec3
  radius : ℝ
  mat : ℕ

def Disk.hit (d : Disk) (r : Ray) (tMin tMax : ℝ) : Option HitRecord :=
  let inter := dot r.direction d.normal
  if |inter| < 1 / 100000000 then none
  else
    let t := dot (d.center - r.origin) d.normal / inter
    if t < tMin ∨ t > tMax then none
    else if lengthSquared (r.at t - d.center) ≥ d.radius * d.radius then none
    else
      some (mkHitRecord r t (r.at t)
        (if inter < 0 then d.normal else -d.normal) d.mat)

/-! ### Cylinder (`src/shapes/cylinder.rs`)

`Cylinder::hit` tests four candidates (two tube roots, two caps) against
one shared shrinking `closest_so_far` bound initialised to `t_max`.  Each
candidate test is one `consider` step below: the candidate replaces the
state exactly when its own validity test passes and `t_min <= t` and
`t <= closest_so_far` (both comparisons are inclusive in the source). -/

def consider (tMin : ℝ) (valid : Prop) [Decidable valid] (rec : HitRecord)
    (st : Option HitRecord × ℝ) : Option HitRecord × ℝ :=
  if valid ∧ tMin ≤ rec.t ∧ rec.t ≤ st.2 then (some rec, rec.t) else st

structure Cylinder where
  baseCenter : Vec3
  axis : Vec3
  radius : ℝ
  height : ℝ
  mat : ℕ

def Cylinder.new (baseCenter axis : Vec3) (radius height : ℝ) (m : ℕ) :
    Cylinder :=
  ⟨baseCenter, unitVector axis, radius, height, m⟩

/-- `d_perp = D - axis * dot(D, axis)` in `Cylinder::hit`. -/
def Cylinder.dPerp (cy : Cylinder) (r : Ray) : Vec3 :=
  r.direction - dot r.direction cy.axis • cy.axis

/-- `oc_perp = oc - axis * dot(oc, axis)` in `Cylinder::hit`. -/
def Cylinder.ocPerp (cy : Cylinder) (r : Ray) : Vec3 :=
  (r.origin - cy.baseCenter) - dot (r.origin - cy.baseCenter) cy.axis • cy.axis

/-- `a = d_perp.length_squared()` in `Cylinder::hit`. -/
def Cylinder.quadA (cy : Cylinder) (r : Ray) : ℝ := lengthSquared (cy.dPerp r)

/-- `half_b = dot(d_perp, oc_perp)` in `Cylinder::hit`. -/
def Cylinder.quadHalfB (cy : Cylinder) (r : Ray) : ℝ :=
  dot (cy.dPerp r) (cy.ocPerp r)

/-- `c = oc_perp.length_squared() - radius*radius` in `Cylinder::hit`. -/
def Cylinder.quadC (cy : Cylinder) (r : Ray) : ℝ :=
  lengthSquared (cy.ocPerp r) - cy.radius * cy.radius

/-- `discriminant = half_b*half_b - a*c` in `Cylinder::hit`. -/
def Cylinder.discrim (cy : Cylinder) (r : Ray) : ℝ :=
  cy.quadHalfB r * cy.quadHalfB r - cy.quadA r * cy.quadC r

/-- Tube root `t = (-half_b + sign * sqrt(d)) / a` in `Cylinder::hit`. -/
def Cylinder.tubeT (cy : Cylinder) (r : Ray) (sign : ℝ) : ℝ :=
  (-cy.quadHalfB r + sign * Real.sqrt (cy.discrim r)) / cy.quadA r

/-- Axial coordinate `v = dot(p - base_center, axis)` of the point at
parameter `t` in `Cylinder::hit`. -/
def Cylinder.axialCoord (cy : Cylinder) (r : Ray) (t : ℝ) : ℝ :=
  dot (r.at t - cy.baseCenter) cy.axis

/-- A tube root is kept only when the discriminant was non-negative and
its axial coordinate lies in `[0, height]`. -/
def Cylinder.tubeOk (cy : Cylinder) (r : Ray) (t : ℝ) : Prop :=
  0 ≤ cy.discrim r ∧ 0 ≤ cy.axialCoord r t ∧ cy.axialCoord r t ≤ cy.height

instance (cy : Cylinder) (r : Ray) (t : ℝ) : Decidable (cy.tubeOk r t) :=
  inferInstanceAs (Decidable (0 ≤ cy.discrim r ∧ 0 ≤ cy.axialCoord r t ∧
    cy.axialCoord r t ≤ cy.height))

/-- The record the tube branch fills: outward normal is the normalised
radial offset `p - base_center - axis*v`. -/
def Cylinder.tubeRec (cy : Cylinder) (r : Ray) (t : ℝ) : HitRecord :=
  mkHitRecord r t (r.at t)
    (unitVector (r.at t - cy.baseCenter - cy.axialCoord r t • cy.axis)) cy.mat

/-- `cap_center = base_center + axis * cap_offset` in `Cylinder::hit`. -/
def Cylinder.capCenter (cy : Cylinder) (off : ℝ) : Vec3 :=
  cy.baseCenter + off • cy.axis

/-- Cap plane parameter `t = dot(cap_center - O, axis) / dot(D, axis)`. -/
def Cylinder.capT (cy : Cylinder) (r : Ray) (off : ℝ) : ℝ :=
  dot (cy.capCenter off - r.origin) cy.axis / dot r.direction cy.axis

/-- A cap candidate is kept only when the ray is not parallel to the cap
plane (`|denom| > 1e-8`) and the plane point is within `radius²` of the
cap center. -/
def Cylinder.capOk (cy : Cylinder) (r : Ray) (off : ℝ) : Prop :=
  1 / 100000000 < |dot r.direction cy.axis| ∧
    lengthSquared (r.at (cy.capT r off) - cy.capCenter off) ≤
      cy.radius * cy.radius

instance (cy : Cylinder) (r : Ray) (off : ℝ) : Decidable (cy.capOk r off) :=
  inferInstanceAs (Decidable (1 / 100000000 < |dot r.direction cy.axis| ∧
    lengthSquared (r.at (cy.capT r off) - cy.capCenter off) ≤
      cy.radius * cy.radius))

/-- The record the cap branch fills: outward normal is `axis * sign`. -/
def Cylinder.capRec (cy : Cylinder) (r : Ray) (off sign : ℝ) : HitRecord :=
  mkHitRecord r (cy.capT r off) (r.at (cy.capT r off)) (sign • cy.axis) cy.mat

/-- The four candidates of `Cylinder::hit` in source order: tube root with
sign `-1`, tube root with sign `+1`, bottom cap `(0, +1)`, top cap
`(height, -1)`. -/
def Cylinder.cands (cy : Cylinder) (r : Ray) : List (Prop × HitRecord) :=
  [ (cy.tubeOk r (cy.tubeT r (-1)), cy.tubeRec r (cy.tubeT r (-1))),
    (cy.tubeOk r (cy.tubeT r 1), cy.tubeRec r (cy.tubeT r 1)),
    (cy.capOk r 0, cy.capRec r 0 1),
    (cy.capOk r cy.height, cy.capRec r cy.height (-1)) ]

def Cylinder.hit (cy : Cylinder) (r : Ray) (tMin tMax : ℝ) : Option HitRecord :=
  (consider tMin (cy.capOk r cy.height) (cy.capRec r cy.height (-1))
    (consider tMin (cy.capOk r 0) (cy.capRec r 0 1)
      (consider tMin (cy.tubeOk r (cy.tubeT r 1)) (cy.tubeRec r (cy.tubeT r 1))
        (consider tMin (cy.tubeOk r (cy.tubeT r (-1)))
          (cy.tubeRec r (cy.tubeT r (-1)))
          (none, tMax))))).1

/-- A candidate passes against the full interval when its own validity
test holds and its `t` lies in `[t_min, t_max]`. -/
def passes (tMin tMax : ℝ) (c : Prop × HitRecord) : Prop :=
  c.1 ∧ tMin ≤ c.2.t ∧ c.2.t ≤ tMax

/-! ### HittableList (`src/hittable_list.rs`)

`Vec<Box<dyn Hittable>>` is embedded as a list of hit functions. -/

abbrev AHit : Type := Ray → ℝ → ℝ → Option HitRecord

abbrev HittableList : Type := List AHit

/-- One iteration of the scan in `HittableList::hit`: query the object
against `(t_min, closest_so_far)`; on a hit, save the record and shrink
the bound to the record's `t`. -/
def hitStep (r : Ray) (tMin : ℝ) (st : Option HitRecord × ℝ) (o : AHit) :
    Option HitRecord × ℝ :=
  match o r tMin st.2 with
  | some rec => (some rec, rec.t)
  | none => st

def HittableList.hit (L : HittableList) (r : Ray) (tMin tMax : ℝ) :
    Option HitRecord :=
  (L.foldl (hitStep r tMin) (none, tMax)).1

/-- One candidate test of `Cylinder::hit` viewed as a hittable of its own:
it reports its fixed record exactly when its validity test passes and the
record's `t` lies inside the queried interval, both bounds inclusive as in
the source (`t >= t_min && t <= closest_so_far`). -/
def candObj (v : Prop) [Decidable v] (rec : HitRecord) : AHit :=
  fun _ a b => if v ∧ a ≤ rec.t ∧ rec.t ≤ b then some rec else none

/-! ### Cube (`src/shapes/cube.rs`) -/

/-- The six faces built by `Cube::new`, in source order (front, back, top,
bottom, right, left), each sized to the max of the two relevant
dimensions. -/
def Cube.new (pMin pMax : Vec3) (m : ℕ) : List Square :=
  let width := pMax.x - pMin.x
  let height := pMax.y - pMin.y
  let depth := pMax.z - pMin.z
  let cx := (pMin.x + pMax.x) / 2
  let cy := (pMin.y + pMax.y) / 2
  let cz := (pMin.z + pMax.z) / 2
  [ Square.new ⟨cx, cy, pMax.z⟩ ⟨0, 0, 1⟩ (max width height) m,
    Square.new ⟨cx, cy, pMin.z⟩ ⟨0, 0, -1⟩ (max width height) m,
    Square.new ⟨cx, pMax.y, cz⟩ ⟨0, 1, 0⟩ (max width depth) m,
    Square.new ⟨cx, pMin.y, cz⟩ ⟨0, -1, 0⟩ (max width depth) m,
    Square.new ⟨pMax.x, cy, cz⟩ ⟨1, 0, 0⟩ (max height depth) m,
    Square.new ⟨pMin.x, cy, cz⟩ ⟨-1, 0, 0⟩ (max height depth) m ]

/-- `Cube::hit` delegates entirely to the six-element aggregate. -/
def Cube.hit (sides : List Square) (r : Ray) (tMin tMax : ℝ) :
    Option HitRecord :=
  HittableList.hit (sides.map Square.hit) r tMin tMax

/-! ### Metal (`src/material.rs`)

`random_in_unit_sphere()` is passed in as the explicit argument `rand`.
The source writes `attenuation` and `scattered` unconditionally and
returns a boolean; the embedding bundles them into the option result. -/

structure Metal where
  albedo : Vec3
  fuzz : ℝ

def Metal.new (a : Vec3) (f : ℝ) : Metal := ⟨a, if f < 1 then f else 1⟩

def Metal.scatter (m : Metal) (rIn : Ray) (rec : HitRecord) (rand : Vec3) :
    Option (Vec3 × Ray) :=
  let reflected := reflect (unitVector rIn.direction) rec.normal
  let scattered : Ray := ⟨rec.p, reflected + m.fuzz • rand⟩
  if 0 < dot scattered.direction rec.normal then some (m.albedo, scattered)
  else none

/-! ### Color output (`src/color.rs`, `src/common.rs`) -/

def clamp (x mn mx : ℝ) : ℝ := if x < mn then mn else if x > mx then mx else x

/-- The `as i32` cast of the source on a finite value: truncation toward
zero (saturation never matters on the clamped range `[0, 255.744]`). -/
def rustTrunc (x : ℝ) : ℤ := if 0 ≤ x then ⌊x⌋ else -⌊-x⌋

def writeColor (pixel : Vec3) (samplesPerPixel : ℤ) : ℤ × ℤ × ℤ :=
  let scale : ℝ := 1 / (samplesPerPixel : ℝ)
  let r := Real.sqrt (scale * pixel.x)
  let g := Real.sqrt (scale * pixel.y)
  let b := Real.sqrt (scale * pixel.z)
  (rustTrunc (256 * clamp r 0 (999 / 1000)),
   rustTrunc (256 * clamp g 0 (999 / 1000)),
   rustTrunc (256 * clamp b 0 (999 / 1000)))

/-! ### Integrator (`src/main.rs`)

`ray_color` queries the scene with `t_max = f64::INFINITY`, so the scene
is embedded as a function of the ray and the lower bound only.  The
material dispatch `rec.mat.as_ref().unwrap().scatter(..)` is embedded
through the handle interpretation `scatter`; the `none` branch of
`rec.mat` is unreachable for scenes whose records carry a material (the
source unwraps and would panic there). -/

def rayColor (world : Ray → ℝ → Option HitRecord)
    (scatter : ℕ → Ray → HitRecord → Option (Vec3 × Ray))
    (r : Ray) (depth : ℤ) : Vec3 :=
  if _h : depth ≤ 0 then ⟨0, 0, 0⟩
  else
    match world r (1 / 1000) with
    | some rec =>
      match rec.mat with
      | some m =>
        match scatter m r rec with
        | some (att, sc) => att * rayColor world scatter sc (depth - 1)
        | none => ⟨0, 0, 0⟩
      | none => ⟨0, 0, 0⟩
    | none =>
      let ud := unitVector r.direction
      let t := 1 / 2 * (ud.y + 1)
      (1 - t) • (⟨1, 1, 1⟩ : Vec3) + t • (⟨1 / 2, 7 / 10, 1⟩ : Vec3)
termination_by depth.toNat
decreasing_by simp_wf; omega

/-! ### Concrete inputs used by witnesses and counterexamples -/

def ray0 : Ray := ⟨⟨0, 0, -2⟩, ⟨0, 0, 1⟩⟩

def s0 : Sphere := ⟨⟨0, 0, 0⟩, 1, 7⟩

def rayUp : Ray := ⟨⟨0, 0, 0⟩, ⟨0, 1, 0⟩⟩

def worldNone : Ray → ℝ → Option HitRecord := fun _ _ => none

def scatterNone : ℕ → Ray → HitRecord → Option (Vec3 × Ray) := fun _ _ _ => none

/-- A ray that meets `tieSquare` and `tieCyl` first at the same `t = 1`. -/
def tieRay : Ray := ⟨⟨-1, 2, 0⟩, ⟨1, -1, 0⟩⟩

def tieSquare : Square := ⟨⟨0, 1, 0⟩, ⟨0, 1, 0⟩, ⟨1, 0, 0⟩, ⟨0, 0, 1⟩, 1, 0⟩

def tieCyl : Cylinder := ⟨⟨0, 0, 0⟩, ⟨0, 1, 0⟩, 1, 1, 1⟩

/-- An idealised hittable that reports parameter `c` whenever `c` lies
strictly inside the queried interval; used to instantiate the abstract
aggregate theorems. -/
def hitAtRec (r : Ray) (c : ℝ) (m : ℕ) : HitRecord :=
  ⟨r.at c, ⟨0, 1, 0⟩, c, true, some m⟩

def hitAt (c : ℝ) (m : ℕ) : AHit :=
  fun r a b => if a < c ∧ c < b then some (hitAtRec r c m) else none

def m0 : Metal := ⟨⟨1, 0, 0⟩, 0⟩

def mRec0 : HitRecord := ⟨⟨0, 0, 0⟩, ⟨0, 0, -1⟩, 1, true, some 3⟩

def rayIn0 : Ray := ⟨⟨0, 0, 1⟩, ⟨0, 0, 1⟩⟩

/-! ## Component evaluation lemmas -/

@[simp] theorem add_mk (a b c d e f : ℝ) :
    ((⟨a, b, c⟩ : Vec3) + ⟨d, e, f⟩) = ⟨a + d, b + e, c + f⟩ := rfl

@[simp] theorem sub_mk (a b c d e f : ℝ) :
    ((⟨a, b, c⟩ : Vec3) - ⟨d, e, f⟩) = ⟨a - d, b - e, c - f⟩ := rfl

@[simp] theorem neg_mk (a b c : ℝ) : (-(⟨a, b, c⟩ : Vec3)) = ⟨-a, -b, -c⟩ := rfl

@[simp] theorem mul_mk (a b c d e f : ℝ) :
    ((⟨a, b, c⟩ : Vec3) * ⟨d, e, f⟩) = ⟨a * d, b * e, c * f⟩ := rfl

@[simp] theorem smul_mk (k a b c : ℝ) :
    (k • (⟨a, b, c⟩ : Vec3)) = ⟨k * a, k * b, k * c⟩ := rfl

@[simp] theorem dot_mk (a b c d e f : ℝ) :
    dot ⟨a, b, c⟩ ⟨d, e, f⟩ = a * d + b * e + c * f := rfl

@[simp] theorem cross_mk (a b c d e f : ℝ) :
    cross ⟨a, b, c⟩ ⟨d, e, f⟩ = ⟨b * f - c * e, c * d - a * f, a * e - b * d⟩ :=
  rfl

@[simp] theorem sdiv_mk (a b c k : ℝ) :
    sdiv ⟨a, b, c⟩ k = ⟨a / k, b / k, c / k⟩ := rfl

@[simp] theorem lengthSquared_mk (a b c : ℝ) :
    lengthSquared ⟨a, b, c⟩ = a * a + b * b + c * c := rfl

@[simp] theorem length_mk (a b c : ℝ) :
    length ⟨a, b, c⟩ = Real.sqrt (a * a + b * b + c * c) := rfl

@[simp] theorem at_mk (o d : Vec3) (t : ℝ) :
    Ray.at ⟨o, d⟩ t = o + t • d := rfl

/-! ## Claim C10 -/

/-- Claim C10: `Metal::new` stores `fuzz = f` when `f < 1.0` and `1.0`
otherwise; a negative fuzz argument is stored unchanged (no lower clamp). -/
theorem metal_new_fuzz (a : Vec3) (f : ℝ) :
    (f < 1 → (Metal.new a f).fuzz = f) ∧
    (¬ f < 1 → (Metal.new a f).fuzz = 1) ∧
    (f < 0 → (Metal.new a f).fuzz = f) := by
  refine ⟨fun h => ?_, fun h => ?_, fun h => ?_⟩
  · simp [Metal.new, h]
  · simp [Metal.new, h]
  · have h1 : f < 1 := by linarith
    simp [Metal.new, h1]

/-- Witness for C10 at fuzz arguments `-2` (kept) and `3` (clamped to 1). -/
theorem metal_new_fuzz_witness :
    (Metal.new ⟨0, 0, 0⟩ (-2)).fuzz = -2 ∧ (Metal.new ⟨0, 0, 0⟩ 3).fuzz = 1 :=
  ⟨(metal_new_fuzz ⟨0, 0, 0⟩ (-2)).1 (by norm_num),
   (metal_new_fuzz ⟨0, 0, 0⟩ 3).2.1 (by norm_num)⟩

/-! ## Claim C7 -/

/-- Claim C7: `Metal::scatter` scatters with direction
`reflect(unit(incoming), normal) + fuzz * random_in_unit_sphere()` and
attenuation equal to the albedo, and succeeds exactly when the scattered
direction has positive dot product with the hit normal. -/
theorem metal_scatter_spec (m : Metal) (rIn : Ray) (rec : HitRecord)
    (rand : Vec3) :
    ((Metal.scatter m rIn rec rand).isSome ↔
      0 < dot (reflect (unitVector rIn.direction) rec.normal + m.fuzz • rand)
        rec.normal) ∧
    (∀ att sc, Metal.scatter m rIn rec rand = some (att, sc) →
      att = m.albedo ∧ sc.origin = rec.p ∧
      sc.direction =
        reflect (unitVector rIn.direction) rec.normal + m.fuzz • rand) := by
  constructor
  · simp only [Metal.scatter]
    split_ifs with h <;> simp [h]
  · intro att sc hsc
    simp only [Metal.scatter] at hsc
    split_ifs at hsc with h
    simp only [Option.some.injEq, Prod.mk.injEq] at hsc
    obtain ⟨ha, hs⟩ := hsc
    refine ⟨ha.symm, ?_, ?_⟩ <;> rw [← hs]

/-- Witness for C7: a fuzz-0 metal reflecting a head-on ray scatters. -/
theorem metal_scatter_spec_witness :
    (Metal.scatter m0 rayIn0 mRec0 ⟨0, 0, 0⟩).isSome := by
  refine (metal_scatter_spec m0 rayIn0 mRec0 ⟨0, 0, 0⟩).1.mpr ?_
  norm_num [m0, rayIn0, mRec0, reflect, unitVector, Real.sqrt_one]

/-! ## Claim C9 -/

/-- Claim C9: `write_color` divides each channel by the sample count,
applies gamma-2 correction by a square root, clamps to `[0, 0.999]` and
only then quantizes by multiplying with 256 and truncating. -/
theorem write_color_pipeline (pixel : Vec3) (spp : ℤ) (_h : 0 < spp) :
    writeColor pixel spp =
      (rustTrunc (256 * clamp (Real.sqrt (pixel.x / (spp : ℝ))) 0 (999 / 1000)),
       rustTrunc (256 * clamp (Real.sqrt (pixel.y / (spp : ℝ))) 0 (999 / 1000)),
       rustTrunc (256 * clamp (Real.sqrt (pixel.z / (spp : ℝ))) 0 (999 / 1000))) := by
  simp only [writeColor, one_div_mul_eq_div]

/-- Witness for C9: a pixel sum of `(1,1,1)` over 4 samples quantizes to
`(128,128,128)`. -/
theorem write_color_pipeline_witness : writeColor ⟨1, 1, 1⟩ 4 = (128, 128, 128) := by
  rw [write_color_pipeline ⟨1, 1, 1⟩ 4 (by norm_num)]
  have hs : Real.sqrt ((1 : ℝ) / 4) = 1 / 2 := by
    rw [show (1 : ℝ) / 4 = (1 / 2) ^ 2 by norm_num]
    exact Real.sqrt_sq (by norm_num)
  norm_num [hs, clamp, rustTrunc]

/-! ## Claim C3 -/

/-- Claim C3: `Sphere::hit` solves the half-b quadratic; negative
discriminant is a miss; otherwise the smaller root is accepted if it is
strictly inside `(t_min, t_max)`, else the larger root under the same
exclusive test, else a miss; on a hit the outward normal passed to the
orientation bookkeeping is `(hit_point - center) / radius`. -/
theorem sphere_hit_cases (s : Sphere) (r : Ray) (tMin tMax : ℝ) :
    (s.discrim r < 0 → s.hit r tMin tMax = none) ∧
    (¬ s.discrim r < 0 →
      (tMin < s.root1 r ∧ s.root1 r < tMax →
        s.hit r tMin tMax = some (sphereRec s r (s.root1 r))) ∧
      (¬(tMin < s.root1 r ∧ s.root1 r < tMax) →
        (tMin < s.root2 r ∧ s.root2 r < tMax →
          s.hit r tMin tMax = some (sphereRec s r (s.root2 r))) ∧
        (¬(tMin < s.root2 r ∧ s.root2 r < tMax) →
          s.hit r tMin tMax = none))) ∧
    (∀ rec, s.hit r tMin tMax = some rec →
      rec = mkHitRecord r rec.t (r.at rec.t)
        (sdiv (r.at rec.t - s.center) s.radius) s.mat) := by
  refine ⟨fun hd => ?_,
    fun hd => ⟨fun h1 => ?_, fun h1 => ⟨fun h2 => ?_, fun h2 => ?_⟩⟩,
    fun rec hrec => ?_⟩
  · simp [Sphere.hit, hd]
  · have hn1 : ¬(s.root1 r ≤ tMin ∨ tMax ≤ s.root1 r) := by
      push_neg; exact h1
    simp [Sphere.hit, hd, hn1]
  · have hr1 : s.root1 r ≤ tMin ∨ tMax ≤ s.root1 r := by
      by_contra hc; push_neg at hc; exact h1 hc
    have hn2 : ¬(s.root2 r ≤ tMin ∨ tMax ≤ s.root2 r) := by
      push_neg; exact h2
    simp [Sphere.hit, hd, hr1, hn2]
  · have hr1 : s.root1 r ≤ tMin ∨ tMax ≤ s.root1 r := by
      by_contra hc; push_neg at hc; exact h1 hc
    have hr2 : s.root2 r ≤ tMin ∨ tMax ≤ s.root2 r := by
      by_contra hc; push_neg at hc; exact h2 hc
    simp [Sphere.hit, hd, hr1, hr2]
  · unfold Sphere.hit at hrec
    split_ifs at hrec
    · obtain h := Option.some.inj hrec
      subst h; rfl
    · obtain h := Option.some.inj hrec
      subst h; rfl

/-- Witness for C3: the unit sphere at the origin, hit from `(0,0,-2)`
along `+z`, is hit at the smaller root `t = 1`. -/
theorem sphere_hit_cases_witness :
    Sphere.hit s0 ray0 0 10 = some (sphereRec s0 ray0 (Sphere.root1 s0 ray0)) ∧
    Sphere.root1 s0 ray0 = 1 := by
  have hd : ¬ Sphere.discrim s0 ray0 < 0 := by
    norm_num [Sphere.discrim, Sphere.quadA, Sphere.quadHalfB, Sphere.quadC,
      s0, ray0]
  have hr : Sphere.root1 s0 ray0 = 1 := by
    norm_num [Sphere.root1, Sphere.discrim, Sphere.quadA, Sphere.quadHalfB,
      Sphere.quadC, s0, ray0, Real.sqrt_one]
  exact ⟨((sphere_hit_cases s0 ray0 0 10).2.1 hd).1 (by rw [hr]; norm_num), hr⟩

/-! ## Claim C6 -/

/-- Claim C6: `Square::hit` misses when the ray is parallel to the plane
(`|dot(D,n)| < 1e-8`), rejects the plane parameter outside the exclusive
interval `(t_min, t_max)`, and otherwise misses exactly when either
projected in-plane coordinate exceeds half the side length in absolute
value. -/
theorem square_hit_cases (q : Square) (r : Ray) (tMin tMax : ℝ) :
    (|q.rdn r| < 1 / 100000000 → q.hit r tMin tMax = none) ∧
    (¬ |q.rdn r| < 1 / 100000000 →
      (q.planeT r ≤ tMin ∨ tMax ≤ q.planeT r → q.hit r tMin tMax = none) ∧
      (tMin < q.planeT r ∧ q.planeT r < tMax →
        ((|q.uCoord r| > q.size / 2 ∨ |q.vCoord r| > q.size / 2) →
          q.hit r tMin tMax = none) ∧
        (¬(|q.uCoord r| > q.size / 2 ∨ |q.vCoord r| > q.size / 2) →
          q.hit r tMin tMax =
            some (mkHitRecord r (q.planeT r) (r.at (q.planeT r)) q.normal
              q.mat)))) := by
  refine ⟨fun he => ?_,
    fun he => ⟨fun ht => ?_, fun ht => ⟨fun hc => ?_, fun hc => ?_⟩⟩⟩
  · unfold Square.hit; rw [if_pos he]
  · unfold Square.hit; rw [if_neg he, if_pos ht]
  · have hn : ¬(q.planeT r ≤ tMin ∨ q.planeT r ≥ tMax) := by
      push_neg; exact ht
    unfold Square.hit; rw [if_neg he, if_neg hn, if_pos hc]
  · have hn : ¬(q.planeT r ≤ tMin ∨ q.planeT r ≥ tMax) := by
      push_neg; exact ht
    unfold Square.hit; rw [if_neg he, if_neg hn, if_neg hc]

/-- Witness for C6: a unit square centred at `(0,1,0)` with normal
`(0,1,0)` is hit by `tieRay` at the plane parameter `t = 1`. -/
theorem square_hit_cases_witness :
    Square.hit tieSquare tieRay 0 10 =
      some (mkHitRecord tieRay (Square.planeT tieSquare tieRay)
        (tieRay.at (Square.planeT tieSquare tieRay)) tieSquare.normal
        tieSquare.mat) ∧
    Square.planeT tieSquare tieRay = 1 := by
  have hpt : Square.planeT tieSquare tieRay = 1 := by
    norm_num [Square.planeT, Square.rdn, tieSquare, tieRay]
  have he : ¬ |Square.rdn tieSquare tieRay| < 1 / 100000000 := by
    norm_num [Square.rdn, tieSquare, tieRay]
  have hu : Square.uCoord tieSquare tieRay = 0 := by
    unfold Square.uCoord
    rw [hpt]
    norm_num [tieSquare, tieRay]
  have hv : Square.vCoord tieSquare tieRay = 0 := by
    unfold Square.vCoord
    rw [hpt]
    norm_num [tieSquare, tieRay]
  refine ⟨(((square_hit_cases tieSquare tieRay 0 10).2 he).2 ?_).2 ?_, hpt⟩
  · rw [hpt]; norm_num
  · rw [hu, hv]
    norm_num [tieSquare]

/-! ## HittableList scan lemmas -/

theorem hitStep_snd_le (r : Ray) (tMin : ℝ) (st : Option HitRecord × ℝ)
    (o : AHit) (hb : ∀ rec, o r tMin st.2 = some rec → rec.t ≤ st.2) :
    (hitStep r tMin st o).2 ≤ st.2 := by
  unfold hitStep
  rcases h : o r tMin st.2 with _ | rec
  · exact le_refl _
  · exact hb rec h

theorem hitStep_inv (r : Ray) (tMin : ℝ) (st : Option HitRecord × ℝ)
    (o : AHit) (hinv : ∀ rc, st.1 = some rc → rc.t = st.2) :
    ∀ rc, (hitStep r tMin st o).1 = some rc → rc.t = (hitStep r tMin st o).2 := by
  unfold hitStep
  rcases h : o r tMin st.2 with _ | rec
  · exact hinv
  · intro rc hrc
    rw [← Option.some.inj hrc]

theorem hitStep_isSome (r : Ray) (tMin : ℝ) (st : Option HitRecord × ℝ)
    (o : AHit) (hs : st.1.isSome) : (hitStep r tMin st o).1.isSome := by
  unfold hitStep
  rcases h : o r tMin st.2 with _ | rec
  · exact hs
  · simp

theorem foldl_snd_le (r : Ray) (tMin : ℝ) :
    ∀ (L : List AHit) (st : Option HitRecord × ℝ),
      (∀ o ∈ L, ∀ b rec, o r tMin b = some rec → rec.t ≤ b) →
      (L.foldl (hitStep r tMin) st).2 ≤ st.2 := by
  intro L
  induction L with
  | nil => intro st _; exact le_refl _
  | cons o L ih =>
    intro st Hb
    simp only [List.foldl_cons]
    refine le_trans (ih (hitStep r tMin st o) fun a ha => Hb a (by simp [ha])) ?_
    exact hitStep_snd_le r tMin st o
      (fun rec h => Hb o (by simp) st.2 rec h)

theorem foldl_inv (r : Ray) (tMin : ℝ) :
    ∀ (L : List AHit) (st : Option HitRecord × ℝ),
      (∀ rc, st.1 = some rc → rc.t = st.2) →
      ∀ rc, (L.foldl (hitStep r tMin) st).1 = some rc →
        rc.t = (L.foldl (hitStep r tMin) st).2 := by
  intro L
  induction L with
  | nil => intro st h; exact h
  | cons o L ih =>
    intro st hinv
    simp only [List.foldl_cons]
    exact ih (hitStep r tMin st o) (hitStep_inv r tMin st o hinv)

theorem foldl_isSome (r : Ray) (tMin : ℝ) :
    ∀ (L : List AHit) (st : Option HitRecord × ℝ),
      st.1.isSome → (L.foldl (hitStep r tMin) st).1.isSome := by
  intro L
  induction L with
  | nil => intro st h; exact h
  | cons o L ih =>
    intro st hs
    simp only [List.foldl_cons]
    exact ih (hitStep r tMin st o) (hitStep_isSome r tMin st o hs)

theorem listHit_some_to_exists (r : Ray) (tMin tMax : ℝ) :
    ∀ (L : List AHit) (st : Option HitRecord × ℝ),
      (∀ o ∈ L, ∀ b rec, o r tMin b = some rec → rec.t ≤ b) →
      (∀ o ∈ L, ∀ b b2, b ≤ b2 → ∀ rec, o r tMin b = some rec →
        ∃ rec2, o r tMin b2 = some rec2) →
      st.2 ≤ tMax → (L.foldl (hitStep r tMin) st).1.isSome →
      st.1.isSome ∨ ∃ o ∈ L, (o r tMin tMax).isSome := by
  intro L
  induction L with
  | nil => intro st _ _ _ h; exact Or.inl h
  | cons o L ih =>
    intro st Hb Hm hle h
    simp only [List.foldl_cons] at h
    have hstep := ih (hitStep r tMin st o)
      (fun a ha => Hb a (by simp [ha])) (fun a ha => Hm a (by simp [ha]))
      (le_trans (hitStep_snd_le r tMin st o
        (fun rec hr => Hb o (by simp) st.2 rec hr)) hle) h
    rcases hstep with hs | ⟨a, ha, hsome⟩
    · unfold hitStep at hs
      rcases hq : o r tMin st.2 with _ | rec
      · rw [hq] at hs
        exact Or.inl hs
      · right
        refine ⟨o, by simp, ?_⟩
        obtain ⟨rec2, hrec2⟩ := Hm o (by simp) st.2 tMax hle rec hq
        simp [hrec2]
    · exact Or.inr ⟨a, by simp [ha], hsome⟩

theorem listHit_exists_to_some (r : Ray) (tMin tMax : ℝ) :
    ∀ (L : List AHit) (st : Option HitRecord × ℝ),
      (st.1.isSome ∨ ((st.1 = none → st.2 = tMax) ∧
        ∃ o ∈ L, (o r tMin tMax).isSome)) →
      (L.foldl (hitStep r tMin) st).1.isSome := by
  intro L
  induction L with
  | nil =>
    intro st h
    rcases h with h | ⟨_, o, ho, _⟩
    · exact h
    · exact absurd ho (by simp)
  | cons o L ih =>
    intro st h
    simp only [List.foldl_cons]
    rcases h with hs | ⟨hnone, a, ha, hsome⟩
    · exact ih _ (Or.inl (hitStep_isSome r tMin st o hs))
    rcases hq : st.1 with _ | rec0
    · have hbnd : st.2 = tMax := hnone hq
      simp only [List.mem_cons] at ha
      rcases ha with rfl | ha
      · refine ih _ (Or.inl ?_)
        unfold hitStep
        rw [hbnd]
        rcases hr : a r tMin tMax with _ | rec
        · rw [hr] at hsome; simp at hsome
        · simp
      · rcases hr : o r tMin st.2 with _ | rec
        · refine ih _ (Or.inr ⟨?_, a, ha, hsome⟩)
          unfold hitStep
          rw [hr]
          exact fun _ => hbnd
        · refine ih _ (Or.inl ?_)
          unfold hitStep
          rw [hr]
          simp
    · exact ih _ (Or.inl (hitStep_isSome r tMin st o (by simp [hq])))

theorem listHit_min (r : Ray) (tMin tMax : ℝ) :
    ∀ (L : List AHit) (st : Option HitRecord × ℝ),
      (∀ o ∈ L, ∀ b rec, o r tMin b = some rec → rec.t ≤ b) →
      (∀ o ∈ L, ∀ b b2, b ≤ b2 → ∀ rec rec2, o r tMin b = some rec →
        o r tMin b2 = some rec2 → rec.t ≤ rec2.t) →
      (∀ o ∈ L, ∀ b b2, b ≤ b2 → o r tMin b = none →
        ∀ rec2, o r tMin b2 = some rec2 → b ≤ rec2.t) →
      (∀ rc, st.1 = some rc → rc.t = st.2) → st.2 ≤ tMax →
      ∀ rec, (L.foldl (hitStep r tMin) st).1 = some rec →
        ∀ o ∈ L, ∀ rec2, o r tMin tMax = some rec2 → rec.t ≤ rec2.t := by
  intro L
  induction L with
  | nil =>
    intro st _ _ _ _ _ rec _ o ho
    exact absurd ho (by simp)
  | cons o L ih =>
    intro st Hb Hle Hf hinv hle rec hrec a ha rec2 hrec2
    simp only [List.foldl_cons] at hrec
    have Hb' : ∀ x ∈ L, ∀ b rec, x r tMin b = some rec → rec.t ≤ b :=
      fun x hx => Hb x (by simp [hx])
    have hinv' := hitStep_inv r tMin st o hinv
    have hle' : (hitStep r tMin st o).2 ≤ tMax :=
      le_trans (hitStep_snd_le r tMin st o
        (fun rc h => Hb o (by simp) st.2 rc h)) hle
    simp only [List.mem_cons] at ha
    rcases ha with rfl | ha
    · -- the object `a` is the head; compare the final record with
      -- its full-interval record
      have hrt : rec.t = (L.foldl (hitStep r tMin) (hitStep r tMin st a)).2 :=
        foldl_inv r tMin L (hitStep r tMin st a) hinv' rec hrec
      have hshrink : (L.foldl (hitStep r tMin) (hitStep r tMin st a)).2 ≤
          (hitStep r tMin st a).2 := foldl_snd_le r tMin L _ Hb'
      rcases hq : a r tMin st.2 with _ | rec1
      · -- the head missed the shrunk interval: every full-interval hit of
        -- the head lies at or beyond the current bound
        have hfail := Hf a (by simp) st.2 tMax hle hq rec2 hrec2
        have : (hitStep r tMin st a).2 = st.2 := by
          unfold hitStep; rw [hq]
        rw [hrt]
        calc (L.foldl (hitStep r tMin) (hitStep r tMin st a)).2
            ≤ (hitStep r tMin st a).2 := hshrink
          _ = st.2 := this
          _ ≤ rec2.t := hfail
      · have hle1 := Hle a (by simp) st.2 tMax hle rec1 rec2 hq hrec2
        have : (hitStep r tMin st a).2 = rec1.t := by
          unfold hitStep; rw [hq]
        rw [hrt]
        calc (L.foldl (hitStep r tMin) (hitStep r tMin st a)).2
            ≤ (hitStep r tMin st a).2 := hshrink
          _ = rec1.t := this
          _ ≤ rec2.t := hle1
    · exact ih (hitStep r tMin st o) Hb'
        (fun x hx => Hle x (by simp [hx])) (fun x hx => Hf x (by simp [hx]))
        hinv' hle' rec hrec a ha rec2 hrec2

/-! ## Claim C1 -/

/-- Claim C1: `HittableList::hit` succeeds exactly when some member hits
within the queried interval, and the stored record's `t` is at most the
`t` of every member's hit on the full interval — the closest hit wins,
found by a linear scan with a shrinking upper bound initialised to
`t_max`.  The hypotheses are the hittable contract for each member:
reported hits respect the queried upper bound, success is monotone in the
upper bound, shrinking the bound never reports a farther hit, and a miss
on a shrunk interval means every full-interval hit is at or beyond that
bound. -/
theorem hittableList_hit_closest (L : HittableList) (r : Ray)
    (tMin tMax : ℝ)
    (Hbound : ∀ o ∈ L, ∀ b rec, o r tMin b = some rec → rec.t ≤ b)
    (Hmono : ∀ o ∈ L, ∀ b b2, b ≤ b2 → ∀ rec, o r tMin b = some rec →
      ∃ rec2, o r tMin b2 = some rec2)
    (Hle : ∀ o ∈ L, ∀ b b2, b ≤ b2 → ∀ rec rec2, o r tMin b = some rec →
      o r tMin b2 = some rec2 → rec.t ≤ rec2.t)
    (Hfail : ∀ o ∈ L, ∀ b b2, b ≤ b2 → o r tMin b = none →
      ∀ rec2, o r tMin b2 = some rec2 → b ≤ rec2.t) :
    ((L.hit r tMin tMax).isSome ↔ ∃ o ∈ L, (o r tMin tMax).isSome) ∧
    (∀ rec, L.hit r tMin tMax = some rec →
      ∀ o ∈ L, ∀ rec2, o r tMin tMax = some rec2 → rec.t ≤ rec2.t) := by
  constructor
  · constructor
    · intro h
      have := listHit_some_to_exists r tMin tMax L (none, tMax) Hbound Hmono
        (le_refl _) h
      rcases this with hs | h
      · simp at hs
      · exact h
    · intro h
      exact listHit_exists_to_some r tMin tMax L (none, tMax)
        (Or.inr ⟨fun _ => rfl, h⟩)
  · intro rec hrec
    exact listHit_min r tMin tMax L (none, tMax) Hbound Hle Hfail
      (by simp) (le_refl _) rec hrec

/-! ## The idealised member used to instantiate the aggregate theorems -/

theorem hitAt_bound (c : ℝ) (m : ℕ) (r : Ray) (tMin b : ℝ)
    (rec : HitRecord) : hitAt c m r tMin b = some rec → rec.t ≤ b := by
  unfold hitAt
  split_ifs with h
  · intro he
    rw [← Option.some.inj he]
    exact le_of_lt h.2
  · intro he; cases he

theorem hitAt_mono (c : ℝ) (m : ℕ) (r : Ray) (tMin b b2 : ℝ)
    (hbb : b ≤ b2) (rec : HitRecord) (h : hitAt c m r tMin b = some rec) :
    ∃ rec2, hitAt c m r tMin b2 = some rec2 := by
  unfold hitAt at h ⊢
  split_ifs at h with hc
  · exact ⟨hitAtRec r c m, by rw [if_pos ⟨hc.1, lt_of_lt_of_le hc.2 hbb⟩]⟩

theorem hitAt_le (c : ℝ) (m : ℕ) (r : Ray) (tMin b b2 : ℝ) (_hbb : b ≤ b2)
    (rec rec2 : HitRecord) (h : hitAt c m r tMin b = some rec)
    (h2 : hitAt c m r tMin b2 = some rec2) : rec.t ≤ rec2.t := by
  unfold hitAt at h h2
  split_ifs at h with hc
  split_ifs at h2 with hc2
  rw [← Option.some.inj h, ← Option.some.inj h2]

theorem hitAt_fail (c : ℝ) (m : ℕ) (r : Ray) (tMin b b2 : ℝ) (_hbb : b ≤ b2)
    (h : hitAt c m r tMin b = none) (rec2 : HitRecord)
    (h2 : hitAt c m r tMin b2 = some rec2) : b ≤ rec2.t := by
  unfold hitAt at h h2
  split_ifs at h with hc
  split_ifs at h2 with hc2
  rw [← Option.some.inj h2]
  show b ≤ (hitAtRec r c m).t
  by_contra hb
  push_neg at hb
  exact hc ⟨hc2.1, hb⟩

theorem hitAt_strict (c : ℝ) (m : ℕ) (r : Ray) (tMin b : ℝ)
    (rec : HitRecord) (h : hitAt c m r tMin b = some rec) : rec.t < b := by
  unfold hitAt at h
  split_ifs at h with hc
  rw [← Option.some.inj h]
  exact hc.2

/-- Witness for C1: a singleton list around the idealised member reporting
`t = 5` is hit on the interval `(0, 10)`. -/
theorem hittableList_hit_closest_witness :
    (HittableList.hit [hitAt 5 0] rayUp 0 10).isSome := by
  refine (hittableList_hit_closest [hitAt 5 0] rayUp 0 10 ?_ ?_ ?_ ?_).1.mpr ?_
  · intro o ho
    simp only [List.mem_singleton] at ho
    subst ho
    exact fun b rec => hitAt_bound 5 0 rayUp 0 b rec
  · intro o ho
    simp only [List.mem_singleton] at ho
    subst ho
    exact fun b b2 hbb rec => hitAt_mono 5 0 rayUp 0 b b2 hbb rec
  · intro o ho
    simp only [List.mem_singleton] at ho
    subst ho
    exact fun b b2 hbb rec rec2 => hitAt_le 5 0 rayUp 0 b b2 hbb rec rec2
  · intro o ho
    simp only [List.mem_singleton] at ho
    subst ho
    exact fun b b2 hbb hn rec2 => hitAt_fail 5 0 rayUp 0 b b2 hbb hn rec2
  · refine ⟨hitAt 5 0, by simp, ?_⟩
    unfold hitAt
    rw [if_pos (by norm_num)]
    simp

/-! ## Consider-step and candidate lemmas for the cylinder -/

theorem hitStep_candObj (r : Ray) (tMin : ℝ) (v : Prop) [Decidable v]
    (rec : HitRecord) (st : Option HitRecord × ℝ) :
    hitStep r tMin st (candObj v rec) = consider tMin v rec st := by
  unfold hitStep candObj consider
  split_ifs with h <;> rfl

theorem candObj_some (v : Prop) [Decidable v] (rec : HitRecord) (r : Ray)
    (a b : ℝ) (rec2 : HitRecord) (h : candObj v rec r a b = some rec2) :
    rec2 = rec ∧ v ∧ a ≤ rec.t ∧ rec.t ≤ b := by
  unfold candObj at h
  split_ifs at h with hc
  exact ⟨(Option.some.inj h).symm, hc⟩

theorem candObj_isSome_iff (v : Prop) [Decidable v] (rec : HitRecord)
    (r : Ray) (a b : ℝ) :
    (candObj v rec r a b).isSome ↔ v ∧ a ≤ rec.t ∧ rec.t ≤ b := by
  unfold candObj
  split_ifs with h <;> simp [h]

theorem candObj_bound (v : Prop) [Decidable v] (rec : HitRecord) (r : Ray)
    (tMin b : ℝ) (rec2 : HitRecord) (h : candObj v rec r tMin b = some rec2) :
    rec2.t ≤ b := by
  obtain ⟨hr, _, _, hb⟩ := candObj_some v rec r tMin b rec2 h
  rw [hr]; exact hb

theorem candObj_mono (v : Prop) [Decidable v] (rec : HitRecord) (r : Ray)
    (tMin b b2 : ℝ) (hbb : b ≤ b2) (rec2 : HitRecord)
    (h : candObj v rec r tMin b = some rec2) :
    ∃ rec3, candObj v rec r tMin b2 = some rec3 := by
  obtain ⟨_, hv, h1, h2⟩ := candObj_some v rec r tMin b rec2 h
  refine ⟨rec, ?_⟩
  unfold candObj
  rw [if_pos ⟨hv, h1, le_trans h2 hbb⟩]

theorem candObj_le (v : Prop) [Decidable v] (rec : HitRecord) (r : Ray)
    (tMin b b2 : ℝ) (_hbb : b ≤ b2) (rec2 rec3 : HitRecord)
    (h : candObj v rec r tMin b = some rec2)
    (h2 : candObj v rec r tMin b2 = some rec3) : rec2.t ≤ rec3.t := by
  obtain ⟨hr2, _⟩ := candObj_some v rec r tMin b rec2 h
  obtain ⟨hr3, _⟩ := candObj_some v rec r tMin b2 rec3 h2
  rw [hr2, hr3]

theorem candObj_fail (v : Prop) [Decidable v] (rec : HitRecord) (r : Ray)
    (tMin b b2 : ℝ) (_hbb : b ≤ b2) (h : candObj v rec r tMin b = none)
    (rec2 : HitRecord) (h2 : candObj v rec r tMin b2 = some rec2) :
    b ≤ rec2.t := by
  obtain ⟨hr2, hv, h1, _⟩ := candObj_some v rec r tMin b2 rec2 h2
  unfold candObj at h
  split_ifs at h with hc
  rw [hr2]
  by_contra hb
  push_neg at hb
  exact hc ⟨hv, h1, le_of_lt hb⟩

theorem listHit_some_src (r : Ray) (tMin : ℝ) :
    ∀ (L : List AHit) (st : Option HitRecord × ℝ),
      (∀ o ∈ L, ∀ b rec, o r tMin b = some rec → rec.t ≤ b) →
      ∀ rec, (L.foldl (hitStep r tMin) st).1 = some rec →
        st.1 = some rec ∨ ∃ o ∈ L, ∃ b, b ≤ st.2 ∧ o r tMin b = some rec := by
  intro L
  induction L with
  | nil => intro st _ rec h; exact Or.inl h
  | cons o L ih =>
    intro st Hb rec h
    simp only [List.foldl_cons] at h
    rcases ih (hitStep r tMin st o) (fun a ha => Hb a (by simp [ha])) rec h with
      hs | ⟨a, ha, b, hb, hsome⟩
    · unfold hitStep at hs
      rcases hq : o r tMin st.2 with _ | rec1
      · rw [hq] at hs
        exact Or.inl hs
      · rw [hq] at hs
        rw [Option.some.inj hs] at hq
        exact Or.inr ⟨o, by simp, st.2, le_refl _, hq⟩
    · refine Or.inr ⟨a, by simp [ha], b, ?_, hsome⟩
      exact le_trans hb (hitStep_snd_le r tMin st o
        (fun rc hrc => Hb o (by simp) st.2 rc hrc))

/-! ## Claim C4 -/

/-- Claim C4: `Cylinder::hit` evaluates the two tube roots of the
restricted half-b quadratic (rejecting roots whose axial coordinate falls
outside `[0, height]`) and the two cap-plane intersections (accepted only
within `radius²` of the cap centre) against one shared shrinking
`closest_so_far` bound initialised to `t_max`; it succeeds exactly when
some candidate passes its own containment test inside the interval, and
the returned record is a passing candidate of minimal `t`. -/
theorem cylinder_hit_closest (cy : Cylinder) (r : Ray) (tMin tMax : ℝ) :
    ((cy.hit r tMin tMax).isSome ↔ ∃ c ∈ cy.cands r, passes tMin tMax c) ∧
    (∀ rec, cy.hit r tMin tMax = some rec →
      (∃ c ∈ cy.cands r, passes tMin tMax c ∧ rec = c.2) ∧
      (∀ c ∈ cy.cands r, passes tMin tMax c → rec.t ≤ c.2.t)) := by
  set L : List AHit :=
    [candObj (cy.tubeOk r (cy.tubeT r (-1))) (cy.tubeRec r (cy.tubeT r (-1))),
     candObj (cy.tubeOk r (cy.tubeT r 1)) (cy.tubeRec r (cy.tubeT r 1)),
     candObj (cy.capOk r 0) (cy.capRec r 0 1),
     candObj (cy.capOk r cy.height) (cy.capRec r cy.height (-1))] with hL
  have hbridge : cy.hit r tMin tMax = (L.foldl (hitStep r tMin) (none, tMax)).1 := by
    rw [hL]
    unfold Cylinder.hit
    simp only [List.foldl_cons, List.foldl_nil, hitStep_candObj]
  have HbL : ∀ o ∈ L, ∀ b rec, o r tMin b = some rec → rec.t ≤ b := by
    intro o ho
    rw [hL] at ho
    simp only [List.mem_cons, List.not_mem_nil, or_false] at ho
    rcases ho with rfl | rfl | rfl | rfl <;>
      exact fun b rec h => candObj_bound _ _ r tMin b rec h
  have HmL : ∀ o ∈ L, ∀ b b2, b ≤ b2 → ∀ rec, o r tMin b = some rec →
      ∃ rec2, o r tMin b2 = some rec2 := by
    intro o ho
    rw [hL] at ho
    simp only [List.mem_cons, List.not_mem_nil, or_false] at ho
    rcases ho with rfl | rfl | rfl | rfl <;>
      exact fun b b2 hbb rec h => candObj_mono _ _ r tMin b b2 hbb rec h
  have HleL : ∀ o ∈ L, ∀ b b2, b ≤ b2 → ∀ rec rec2, o r tMin b = some rec →
      o r tMin b2 = some rec2 → rec.t ≤ rec2.t := by
    intro o ho
    rw [hL] at ho
    simp only [List.mem_cons, List.not_mem_nil, or_false] at ho
    rcases ho with rfl | rfl | rfl | rfl <;>
      exact fun b b2 hbb rec rec2 h h2 => candObj_le _ _ r tMin b b2 hbb rec rec2 h h2
  have HfL : ∀ o ∈ L, ∀ b b2, b ≤ b2 → o r tMin b = none →
      ∀ rec2, o r tMin b2 = some rec2 → b ≤ rec2.t := by
    intro o ho
    rw [hL] at ho
    simp only [List.mem_cons, List.not_mem_nil, or_false] at ho
    rcases ho with rfl | rfl | rfl | rfl <;>
      exact fun b b2 hbb h rec2 h2 => candObj_fail _ _ r tMin b b2 hbb h rec2 h2
  constructor
  · constructor
    · intro h
      rw [hbridge] at h
      rcases listHit_some_to_exists r tMin tMax L (none, tMax) HbL HmL
        (le_refl _) h with hs | ⟨o, ho, hsome⟩
      · simp at hs
      · rw [hL] at ho
        simp only [List.mem_cons, List.not_mem_nil, or_false] at ho
        simp only [Cylinder.cands, List.mem_cons, List.not_mem_nil, or_false]
        rcases ho with rfl | rfl | rfl | rfl
        · exact ⟨_, Or.inl rfl, (candObj_isSome_iff _ _ r tMin tMax).mp hsome⟩
        · exact ⟨_, Or.inr (Or.inl rfl),
            (candObj_isSome_iff _ _ r tMin tMax).mp hsome⟩
        · exact ⟨_, Or.inr (Or.inr (Or.inl rfl)),
            (candObj_isSome_iff _ _ r tMin tMax).mp hsome⟩
        · exact ⟨_, Or.inr (Or.inr (Or.inr rfl)),
            (candObj_isSome_iff _ _ r tMin tMax).mp hsome⟩
    · intro hex
      rw [hbridge]
      simp only [Cylinder.cands, List.mem_cons, List.not_mem_nil, or_false] at hex
      obtain ⟨c, hc, hp⟩ := hex
      apply listHit_exists_to_some r tMin tMax L (none, tMax)
      refine Or.inr ⟨fun _ => rfl, ?_⟩
      rcases hc with rfl | rfl | rfl | rfl
      · exact ⟨_, by rw [hL]; simp,
          (candObj_isSome_iff _ _ r tMin tMax).mpr hp⟩
      · exact ⟨_, by rw [hL]; simp,
          (candObj_isSome_iff _ _ r tMin tMax).mpr hp⟩
      · exact ⟨_, by rw [hL]; simp,
          (candObj_isSome_iff _ _ r tMin tMax).mpr hp⟩
      · exact ⟨_, by rw [hL]; simp,
          (candObj_isSome_iff _ _ r tMin tMax).mpr hp⟩
  · intro rec hrec
    rw [hbridge] at hrec
    constructor
    · rcases listHit_some_src r tMin L (none, tMax) HbL rec hrec with
        hs | ⟨o, ho, b, hb, hsome⟩
      · simp at hs
      · rw [hL] at ho
        simp only [List.mem_cons, List.not_mem_nil, or_false] at ho
        simp only [Cylinder.cands, List.mem_cons, List.not_mem_nil, or_false]
        rcases ho with rfl | rfl | rfl | rfl
        · obtain ⟨hr, hv, h1, h2⟩ := candObj_some _ _ r tMin b rec hsome
          exact ⟨_, Or.inl rfl, ⟨hv, h1, le_trans h2 hb⟩, hr⟩
        · obtain ⟨hr, hv, h1, h2⟩ := candObj_some _ _ r tMin b rec hsome
          exact ⟨_, Or.inr (Or.inl rfl), ⟨hv, h1, le_trans h2 hb⟩, hr⟩
        · obtain ⟨hr, hv, h1, h2⟩ := candObj_some _ _ r tMin b rec hsome
          exact ⟨_, Or.inr (Or.inr (Or.inl rfl)), ⟨hv, h1, le_trans h2 hb⟩, hr⟩
        · obtain ⟨hr, hv, h1, h2⟩ := candObj_some _ _ r tMin b rec hsome
          exact ⟨_, Or.inr (Or.inr (Or.inr rfl)), ⟨hv, h1, le_trans h2 hb⟩, hr⟩
    · intro c hc hp
      simp only [Cylinder.cands, List.mem_cons, List.not_mem_nil, or_false] at hc
      have hmin := listHit_min r tMin tMax L (none, tMax) HbL HleL HfL
        (by simp) (le_refl _) rec hrec
      rcases hc with rfl | rfl | rfl | rfl
      · have hfull : candObj (cy.tubeOk r (cy.tubeT r (-1)))
            (cy.tubeRec r (cy.tubeT r (-1))) r tMin tMax =
            some (cy.tubeRec r (cy.tubeT r (-1))) := by
          unfold candObj
          exact if_pos hp
        exact hmin _ (by rw [hL]; simp) _ hfull
      · have hfull : candObj (cy.tubeOk r (cy.tubeT r 1))
            (cy.tubeRec r (cy.tubeT r 1)) r tMin tMax =
            some (cy.tubeRec r (cy.tubeT r 1)) := by
          unfold candObj
          exact if_pos hp
        exact hmin _ (by rw [hL]; simp) _ hfull
      · have hfull : candObj (cy.capOk r 0) (cy.capRec r 0 1) r tMin tMax =
            some (cy.capRec r 0 1) := by
          unfold candObj
          exact if_pos hp
        exact hmin _ (by rw [hL]; simp) _ hfull
      · have hfull : candObj (cy.capOk r cy.height)
            (cy.capRec r cy.height (-1)) r tMin tMax =
            some (cy.capRec r cy.height (-1)) := by
          unfold candObj
          exact if_pos hp
        exact hmin _ (by rw [hL]; simp) _ hfull

/-- Witness for C4: `tieRay` enters `tieCyl` through the top cap, so the
top-cap candidate passes and the hit succeeds. -/
theorem cylinder_hit_closest_witness :
    (Cylinder.hit tieCyl tieRay 0 10).isSome := by
  refine (cylinder_hit_closest tieCyl tieRay 0 10).1.mpr
    ⟨(tieCyl.capOk tieRay tieCyl.height,
      tieCyl.capRec tieRay tieCyl.height (-1)), by simp [Cylinder.cands], ?_⟩
  norm_num [passes, Cylinder.capOk, Cylinder.capT, Cylinder.capRec,
    Cylinder.capCenter, mkHitRecord, faceNormalVec, tieCyl, tieRay, Ray.at]

/-! ## Claim C5 -/

/-- Claim C5 (amended): the first object in iteration order wins exact
ties only for members whose hit enforces a strict upper bound on the
reported `t` (as `Sphere::hit` and `Square::hit` do): a later such member
whose closest valid intersection exactly equals `closest_so_far` is
rejected by the strict comparison and never replaces the stored record. -/
theorem hittableList_tie_first_wins (o1 o2 : AHit) (r : Ray)
    (tMin tMax : ℝ) (r1 r2 : HitRecord)
    (h1 : o1 r tMin tMax = some r1) (hb1 : r1.t ≤ tMax)
    (h2 : o2 r tMin tMax = some r2) (heq : r2.t = r1.t)
    (Hstrict : ∀ b rec, o2 r tMin b = some rec → rec.t < b)
    (Hclosest : ∀ b rec, b ≤ tMax → o2 r tMin b = some rec → r2.t ≤ rec.t) :
    HittableList.hit [o1, o2] r tMin tMax = some r1 := by
  unfold HittableList.hit
  simp only [List.foldl_cons, List.foldl_nil]
  have s1 : hitStep r tMin (none, tMax) o1 = (some r1, r1.t) := by
    unfold hitStep; rw [h1]
  rw [s1]
  have s2 : o2 r tMin r1.t = none := by
    rcases hq : o2 r tMin r1.t with _ | rec
    · rfl
    · have hlt : rec.t < r1.t := Hstrict r1.t rec hq
      have hge : r2.t ≤ rec.t := Hclosest r1.t rec hb1 hq
      rw [heq] at hge
      exact absurd hlt (not_lt.mpr hge)
  simp [hitStep, s2]

/-- Witness for C5 (amended): two idealised strict members both reporting
`t = 5`; the first one's record is returned. -/
theorem hittableList_tie_first_wins_witness :
    HittableList.hit [hitAt 5 0, hitAt 5 1] rayUp 0 10 =
      some (hitAtRec rayUp 5 0) := by
  refine hittableList_tie_first_wins (hitAt 5 0) (hitAt 5 1) rayUp 0 10
    (hitAtRec rayUp 5 0) (hitAtRec rayUp 5 1) ?_ ?_ ?_ rfl ?_ ?_
  · unfold hitAt; rw [if_pos (by norm_num)]
  · show (5 : ℝ) ≤ 10
    norm_num
  · unfold hitAt; rw [if_pos (by norm_num)]
  · exact fun b rec h => hitAt_strict 5 1 rayUp 0 b rec h
  · intro b rec _hble h
    unfold hitAt at h
    split_ifs at h with hc
    rw [← Option.some.inj h]

/-- Counterexample to C5 as stated: `tieRay` meets `tieSquare` (first in
the list, `t = 1`) and `tieCyl` (second, closest valid intersection also
`t = 1`), yet the aggregate returns the cylinder's record, because
`Cylinder::hit` compares `t <= closest_so_far` inclusively and so replaces
the stored record on an exact tie. -/
theorem hittableList_tie_cex :
    HittableList.hit [Square.hit tieSquare, Cylinder.hit tieCyl] tieRay 0 10
      = some ⟨⟨0, 1, 0⟩, ⟨0, 1, 0⟩, 1, false, some 1⟩ ∧
    Square.hit tieSquare tieRay 0 10 =
      some ⟨⟨0, 1, 0⟩, ⟨0, 1, 0⟩, 1, true, some 0⟩ ∧
    Cylinder.hit tieCyl tieRay 0 10 =
      some ⟨⟨0, 1, 0⟩, ⟨0, 1, 0⟩, 1, false, some 1⟩ ∧
    (⟨⟨0, 1, 0⟩, ⟨0, 1, 0⟩, 1, false, some 1⟩ : HitRecord) ≠
      ⟨⟨0, 1, 0⟩, ⟨0, 1, 0⟩, 1, true, some 0⟩ := by
  have hsq : Square.hit tieSquare tieRay 0 10 =
      some ⟨⟨0, 1, 0⟩, ⟨0, 1, 0⟩, 1, true, some 0⟩ := by
    norm_num [Square.hit, Square.rdn, Square.planeT, Square.uCoord,
      Square.vCoord, tieSquare, tieRay, mkHitRecord, faceNormalVec, Ray.at]
  have hcy1 : Cylinder.hit tieCyl tieRay 0 1 =
      some ⟨⟨0, 1, 0⟩, ⟨0, 1, 0⟩, 1, false, some 1⟩ := by
    norm_num [Cylinder.hit, consider, Cylinder.tubeOk, Cylinder.capOk,
      Cylinder.tubeT, Cylinder.capT, Cylinder.axialCoord, Cylinder.tubeRec,
      Cylinder.capRec, Cylinder.capCenter, Cylinder.discrim, Cylinder.quadA,
      Cylinder.quadHalfB, Cylinder.quadC, Cylinder.dPerp, Cylinder.ocPerp,
      tieCyl, tieRay, mkHitRecord, faceNormalVec, Ray.at, unitVector,
      Real.sqrt_one]
  have hcy10 : Cylinder.hit tieCyl tieRay 0 10 =
      some ⟨⟨0, 1, 0⟩, ⟨0, 1, 0⟩, 1, false, some 1⟩ := by
    norm_num [Cylinder.hit, consider, Cylinder.tubeOk, Cylinder.capOk,
      Cylinder.tubeT, Cylinder.capT, Cylinder.axialCoord, Cylinder.tubeRec,
      Cylinder.capRec, Cylinder.capCenter, Cylinder.discrim, Cylinder.quadA,
      Cylinder.quadHalfB, Cylinder.quadC, Cylinder.dPerp, Cylinder.ocPerp,
      tieCyl, tieRay, mkHitRecord, faceNormalVec, Ray.at, unitVector,
      Real.sqrt_one]
  refine ⟨?_, hsq, hcy10, by simp⟩
  unfold HittableList.hit
  simp only [List.foldl_cons, List.foldl_nil, hitStep, hsq, hcy1]

/-! ## Claim C2 -/

/-- Claim C2 (amended): `ray_color` returns black whenever `depth <= 0`
(the source tests `depth <= 0`, so negative depths also return black);
otherwise, on a hit within `(0.001, +inf)` it returns the attenuation
times the recursive color of the scattered ray when the material
scatters, black when it absorbs, and on a miss the vertical background
gradient `(1-t)*white + t*(0.5,0.7,1.0)` with
`t = 0.5*(unit_direction.y + 1)`. -/
theorem rayColor_spec (world : Ray → ℝ → Option HitRecord)
    (scatter : ℕ → Ray → HitRecord → Option (Vec3 × Ray)) :
    (∀ (r : Ray) (d : ℤ), d ≤ 0 → rayColor world scatter r d = ⟨0, 0, 0⟩) ∧
    (∀ (r : Ray) (d : ℤ) (rec : HitRecord) (m : ℕ) (att : Vec3) (sc : Ray),
      0 < d → world r (1 / 1000) = some rec → rec.mat = some m →
      scatter m r rec = some (att, sc) →
      rayColor world scatter r d = att * rayColor world scatter sc (d - 1)) ∧
    (∀ (r : Ray) (d : ℤ) (rec : HitRecord) (m : ℕ), 0 < d →
      world r (1 / 1000) = some rec → rec.mat = some m →
      scatter m r rec = none → rayColor world scatter r d = ⟨0, 0, 0⟩) ∧
    (∀ (r : Ray) (d : ℤ), 0 < d → world r (1 / 1000) = none →
      rayColor world scatter r d =
        (1 - 1 / 2 * ((unitVector r.direction).y + 1)) • (⟨1, 1, 1⟩ : Vec3) +
          (1 / 2 * ((unitVector r.direction).y + 1)) •
            (⟨1 / 2, 7 / 10, 1⟩ : Vec3)) := by
  refine ⟨fun r d hd => ?_, fun r d rec m att sc hd hw hm hs => ?_,
    fun r d rec m hd hw hm hs => ?_, fun r d hd hw => ?_⟩
  · rw [rayColor.eq_def, dif_pos hd]
  · nth_rewrite 1 [rayColor.eq_def]
    rw [dif_neg (by omega)]
    simp only [hw, hm, hs]
  · rw [rayColor.eq_def, dif_neg (by omega)]
    simp only [hw, hm, hs]
  · rw [rayColor.eq_def, dif_neg (by omega)]
    simp only [hw]

/-- Counterexample to C2 as stated: at depth `-1`, which is not 0, with a
scene nothing hits, the code returns black while the claim's no-hit branch
prescribes the background gradient `(0.5, 0.7, 1)` for a straight-up ray. -/
theorem rayColor_depth_neg_cex :
    rayColor worldNone scatterNone rayUp (-1) = ⟨0, 0, 0⟩ ∧
    ((1 - 1 / 2 * ((unitVector rayUp.direction).y + 1)) • (⟨1, 1, 1⟩ : Vec3) +
      (1 / 2 * ((unitVector rayUp.direction).y + 1)) •
        (⟨1 / 2, 7 / 10, 1⟩ : Vec3)) = ⟨1 / 2, 7 / 10, 1⟩ ∧
    (⟨0, 0, 0⟩ : Vec3) ≠ ⟨1 / 2, 7 / 10, 1⟩ := by
  refine ⟨?_, ?_, ?_⟩
  · rw [rayColor.eq_def, dif_pos (by norm_num)]
  · norm_num [rayUp, unitVector, Real.sqrt_one]
  · simp only [ne_eq, Vec3.mk.injEq, not_and]
    norm_num

/-- Witness for C2: at depth 1 with a scene nothing hits, the straight-up
ray reproduces the sky color of the gradient. -/
theorem rayColor_spec_witness :
    rayColor worldNone scatterNone rayUp 1 = ⟨1 / 2, 7 / 10, 1⟩ := by
  rw [(rayColor_spec worldNone scatterNone).2.2.2 rayUp 1 (by norm_num) rfl]
  norm_num [rayUp, unitVector, Real.sqrt_one]

/-! ## Claim C8 -/

theorem listHit_mat (r : Ray) (tMin : ℝ) :
    ∀ (L : List AHit) (st : Option HitRecord × ℝ),
      (∀ rc, st.1 = some rc → rc.mat.isSome) →
      (∀ o ∈ L, ∀ b rec, o r tMin b = some rec → rec.mat.isSome) →
      ∀ rec, (L.foldl (hitStep r tMin) st).1 = some rec → rec.mat.isSome := by
  intro L
  induction L with
  | nil => intro st hst _ rec h; exact hst rec h
  | cons o L ih =>
    intro st hst Hm rec h
    simp only [List.foldl_cons] at h
    refine ih (hitStep r tMin st o) ?_ (fun a ha => Hm a (by simp [ha])) rec h
    intro rc hrc
    unfold hitStep at hrc
    rcases hq : o r tMin st.2 with _ | rec1
    · rw [hq] at hrc
      exact hst rc hrc
    · rw [hq] at hrc
      rw [← Option.some.inj hrc]
      exact Hm o (by simp) st.2 rec1 hq

/-- Claim C8: every hittable implementation (`Sphere`, `Square`, `Disk`,
`Cylinder`, `HittableList` over material-carrying members, `Cube`) fills
the record's material field with `Some` on success, so the integrator's
unwrap of `rec.mat` after a successful `world.hit` can never fail. -/
theorem hit_material_isSome :
    (∀ (s : Sphere) (r : Ray) (a b : ℝ) (rec : HitRecord),
      Sphere.hit s r a b = some rec → rec.mat.isSome) ∧
    (∀ (q : Square) (r : Ray) (a b : ℝ) (rec : HitRecord),
      Square.hit q r a b = some rec → rec.mat.isSome) ∧
    (∀ (d : Disk) (r : Ray) (a b : ℝ) (rec : HitRecord),
      Disk.hit d r a b = some rec → rec.mat.isSome) ∧
    (∀ (cy : Cylinder) (r : Ray) (a b : ℝ) (rec : HitRecord),
      Cylinder.hit cy r a b = some rec → rec.mat.isSome) ∧
    (∀ (L : HittableList) (r : Ray) (a b : ℝ),
      (∀ o ∈ L, ∀ a2 b2 (rec : HitRecord), o r a2 b2 = some rec →
        rec.mat.isSome) →
      ∀ rec, HittableList.hit L r a b = some rec → rec.mat.isSome) ∧
    (∀ (sides : List Square) (r : Ray) (a b : ℝ) (rec : HitRecord),
      Cube.hit sides r a b = some rec → rec.mat.isSome) := by
  have hsq : ∀ (q : Square) (r : Ray) (a b : ℝ) (rec : HitRecord),
      Square.hit q r a b = some rec → rec.mat.isSome := by
    intro q r a b rec h
    unfold Square.hit at h
    split_ifs at h
    rw [← Option.some.inj h]
    simp [mkHitRecord]
  have hlist : ∀ (L : HittableList) (r : Ray) (a b : ℝ),
      (∀ o ∈ L, ∀ a2 b2 (rec : HitRecord), o r a2 b2 = some rec →
        rec.mat.isSome) →
      ∀ rec, HittableList.hit L r a b = some rec → rec.mat.isSome := by
    intro L r a b Hm rec h
    unfold HittableList.hit at h
    refine listHit_mat r a L (none, b) ?_ ?_ rec h
    · intro rc hrc
      exact absurd hrc (by simp)
    · exact fun o ho b2 rec2 h2 => Hm o ho a b2 rec2 h2
  refine ⟨?_, hsq, ?_, ?_, hlist, ?_⟩
  · intro s r a b rec h
    unfold Sphere.hit at h
    split_ifs at h
    · rw [← Option.some.inj h]
      simp [sphereRec, mkHitRecord]
    · rw [← Option.some.inj h]
      simp [sphereRec, mkHitRecord]
  · intro d r a b rec h
    simp only [Disk.hit] at h
    split_ifs at h <;>
      · rw [← Option.some.inj h]
        simp [mkHitRecord]
  · intro cy r a b rec h
    have hbridge : cy.hit r a b =
        (([candObj (cy.tubeOk r (cy.tubeT r (-1)))
             (cy.tubeRec r (cy.tubeT r (-1))),
           candObj (cy.tubeOk r (cy.tubeT r 1)) (cy.tubeRec r (cy.tubeT r 1)),
           candObj (cy.capOk r 0) (cy.capRec r 0 1),
           candObj (cy.capOk r cy.height)
             (cy.capRec r cy.height (-1))] : List AHit).foldl
          (hitStep r a) (none, b)).1 := by
      unfold Cylinder.hit
      simp only [List.foldl_cons, List.foldl_nil, hitStep_candObj]
    rw [hbridge] at h
    refine listHit_mat r a _ (none, b) (fun rc hrc => absurd hrc (by simp))
      ?_ rec h
    intro o ho b2 rec2 h2
    simp only [List.mem_cons, List.not_mem_nil, or_false] at ho
    rcases ho with rfl | rfl | rfl | rfl <;>
      · obtain ⟨hr, _⟩ := candObj_some _ _ r a b2 rec2 h2
        rw [hr]
        simp [Cylinder.tubeRec, Cylinder.capRec, mkHitRecord]
  · intro sides r a b rec h
    unfold Cube.hit at h
    refine hlist _ r a b ?_ rec h
    intro o ho a2 b2 rec2 h2
    simp only [List.mem_map] at ho
    obtain ⟨q, _, rfl⟩ := ho
    exact hsq q r a2 b2 rec2 h2

/-- Witness for C8: the concrete sphere hit of `s0` by `ray0` produces a
record whose material handle is present. -/
theorem hit_material_isSome_witness :
    Sphere.hit s0 ray0 0 10 = some (sphereRec s0 ray0 (Sphere.root1 s0 ray0)) ∧
    ((sphereRec s0 ray0 (Sphere.root1 s0 ray0)).mat).isSome := by
  have hd : ¬ Sphere.discrim s0 ray0 < 0 := by
    norm_num [Sphere.discrim, Sphere.quadA, Sphere.quadHalfB, Sphere.quadC,
      s0, ray0]
  have hr : Sphere.root1 s0 ray0 = 1 := by
    norm_num [Sphere.root1, Sphere.discrim, Sphere.quadA, Sphere.quadHalfB,
      Sphere.quadC, s0, ray0, Real.sqrt_one]
  have h : Sphere.hit s0 ray0 0 10 =
      some (sphereRec s0 ray0 (Sphere.root1 s0 ray0)) := by
    unfold Sphere.hit
    rw [if_neg hd, if_neg (by rw [hr]; norm_num)]
  exact ⟨h, hit_material_isSome.1 s0 ray0 0 10 _ h⟩

end RayTracing
